import Mathlib

/-!
Verification of the transfer-orchestration core of `dvc/fs/base.py`
(class `BaseFileSystem`): capability defaults, dependency checking,
upload/download dispatch, directory transfer scheduling and the atomic
single-file materializer.  Python code is shallowly embedded: pure control
flow becomes Lean functions, filesystem effects become explicit state
passing over a small filesystem model, and the thread-pool directory
download becomes a step relation over scheduler states.
-/

namespace DvcFsBase

/-! ## String containment machinery

Used to state "the error message names X" claims about messages built in
`RemoteActionNotImplemented.__init__` and `_check_requires`. -/

/-- Check that `sub` occurs at the head of `l` (character sequences). -/
def startsWithSeq : List Char → List Char → Bool
  | [], _ => true
  | _ :: _, [] => false
  | a :: as, b :: bs => a = b && startsWithSeq as bs

/-- Check that `sub` occurs somewhere inside `l` (character sequences). -/
def containsSeq (sub : List Char) : List Char → Bool
  | [] => startsWithSeq sub []
  | a :: rest => startsWithSeq sub (a :: rest) || containsSeq sub rest

/-- Check that the string `sub` occurs somewhere inside the string `s`. -/
def strContains (s sub : String) : Bool :=
  containsSeq sub.data s.data

/-! ## Local filesystem model

The destination side of a download lives on the local filesystem.  We model
it as a partial map from path strings to file contents (lists of bytes,
represented as `Nat`), together with the set of existing directories. -/

/-- Local filesystem state: file contents per path and the set of existing
directories. -/
structure Fs where
  files : String → Option (List Nat)
  dirs : List String

/-- The empty filesystem: no files, no directories. -/
def emptyFs : Fs := { files := fun _ => none, dirs := [] }

/-- Modelled from the spec: `makedirs` from `dvc.utils.fs` (not under
`src/`) — creates directory `p`; with `exist_ok = false` it fails (returns
`none`) when `p` already exists, with `exist_ok = true` it always
succeeds, as the spec's scheduler step "ensures the destination directory
exists". -/
def makedirs (fs : Fs) (p : String) (exist_ok : Bool) : Option Fs :=
  if fs.dirs.contains p && !exist_ok then none
  else some { fs with dirs := if fs.dirs.contains p then fs.dirs else p :: fs.dirs }

/-- The result of `makedirs fs p true`, which always succeeds. -/
def mkdirsT (fs : Fs) (p : String) : Fs :=
  { fs with dirs := if fs.dirs.contains p then fs.dirs else p :: fs.dirs }

/-- Parent directory of a path: everything before the last slash
(models `to_info.parent` on a `URLInfo`/local path). -/
def parentDir (p : String) : String :=
  String.mk (((p.data.reverse.dropWhile (fun c => c != '/')).drop 1).reverse)

/-- Create an empty file at `p` (the `open(tmp, "wb")` truncating create a
backend's `get_file` performs on the temporary path). -/
def createEmpty (fs : Fs) (p : String) : Fs :=
  { fs with files := fun q => if q = p then some [] else fs.files q }

/-- Append a chunk of bytes to the file at `p` (one progressive write of a
backend's `get_file` into the temporary path). -/
def appendChunk (fs : Fs) (p : String) (c : List Nat) : Fs :=
  { fs with files := fun q => if q = p then some ((fs.files p).getD [] ++ c) else fs.files q }

/-- Append a whole list of chunks to the file at `p`. -/
def appendAll (fs : Fs) (p : String) (chunks : List (List Nat)) : Fs :=
  chunks.foldl (fun s c => appendChunk s p c) fs

/-- Remove the file at `p` (`os.unlink` on an existing path). -/
def removeF (fs : Fs) (p : String) : Fs :=
  { fs with files := fun q => if q = p then none else fs.files q }

/-- Modelled from the spec: `move` from `dvc.utils.fs` (not under `src/`) —
"atomically moves the temporary path onto the destination path, replacing
any prior content in one step": a single rename transition. -/
def fsMove (fs : Fs) (src dst : String) : Fs :=
  { fs with
    files := fun q => if q = dst then fs.files src else if q = src then none else fs.files q }

/-- Modelled from the spec: `tmp_fname` from `dvc.utils` (not under
`src/`) — "computes a temporary path colocated with the destination": the
destination path extended with a dot, a fresh `uuid` component and a
`.tmp` suffix. -/
def tmp_fname (p uuid : String) : String :=
  p ++ "." ++ uuid ++ ".tmp"

/-! ## Capability contract (`BaseFileSystem` method defaults)

Each unoverridden optional operation of `BaseFileSystem` either raises
`RemoteActionNotImplemented(action, scheme)`, raises a bare
`NotImplementedError`, returns `None`, or returns a boolean default. -/

/-- Observable behavior of an unoverridden `BaseFileSystem` method. -/
inductive OpBehavior where
  | raisesRemoteActionNotImplemented (action scheme : String)
  | raisesNotImplementedError
  | returnsNone
  | returnsBool (b : Bool)
deriving DecidableEq

/-- The operations named by the spec's capability table row under scrutiny. -/
inductive Op where
  | walk
  | walk_files
  | ls
  | find
  | openAct
  | remove
  | makedirsOp
  | copy
  | symlink
  | hardlink
  | reflink
deriving DecidableEq

/-- The Python name of each operation (`openAct` models `open`,
`makedirsOp` models `makedirs`). -/
def opName : Op → String
  | Op.walk => "walk"
  | Op.walk_files => "walk_files"
  | Op.ls => "ls"
  | Op.find => "find"
  | Op.openAct => "open"
  | Op.remove => "remove"
  | Op.makedirsOp => "makedirs"
  | Op.copy => "copy"
  | Op.symlink => "symlink"
  | Op.hardlink => "hardlink"
  | Op.reflink => "reflink"

/-- Message built by `RemoteActionNotImplemented.__init__`:
`f"{action} is not supported for {scheme} remotes"`. -/
def rani_message (action scheme : String) : String :=
  action ++ " is not supported for " ++ scheme ++ " remotes"

/-- Behavior of each unoverridden `BaseFileSystem` method body, line by
line from the source: `open`, `ls`, `find`, `remove`, `copy`, `symlink`,
`hardlink` and `reflink` raise `RemoteActionNotImplemented`; `walk` and
`walk_files` raise a bare `NotImplementedError`; `makedirs` has an empty
body and returns `None`. -/
def baseBehavior (op : Op) (scheme : String) : OpBehavior :=
  match op with
  | Op.walk => OpBehavior.raisesNotImplementedError
  | Op.walk_files => OpBehavior.raisesNotImplementedError
  | Op.ls => OpBehavior.raisesRemoteActionNotImplemented "ls" scheme
  | Op.find => OpBehavior.raisesRemoteActionNotImplemented "find" scheme
  | Op.openAct => OpBehavior.raisesRemoteActionNotImplemented "open" scheme
  | Op.remove => OpBehavior.raisesRemoteActionNotImplemented "remove" scheme
  | Op.makedirsOp => OpBehavior.returnsNone
  | Op.copy => OpBehavior.raisesRemoteActionNotImplemented "copy" scheme
  | Op.symlink => OpBehavior.raisesRemoteActionNotImplemented "symlink" scheme
  | Op.hardlink => OpBehavior.raisesRemoteActionNotImplemented "hardlink" scheme
  | Op.reflink => OpBehavior.raisesRemoteActionNotImplemented "reflink" scheme

/-! ## Dependency check (`get_missing_deps` / `_check_requires`) -/

/-- Model of `BaseFileSystem.get_missing_deps`: walks the declared
`REQUIRES` items (package name, module name) and collects the package
names whose module does not import; `resolvable` models the environment's
`importlib.import_module` succeeding. -/
def get_missing_deps (requires : List (String × String))
    (resolvable : String → Bool) : List String :=
  (requires.filter (fun pr => !resolvable pr.2)).map Prod.fst

/-- Python `repr` of a string (single quotes), as interpolated by
f-strings for list elements. -/
def quoteS (m : String) : String := "\x27" ++ m ++ "\x27"

/-- Python `repr` of a list of strings, inner part: elements joined by
a comma and a space. -/
def pyInner : List String → String
  | [] => ""
  | [m] => quoteS m
  | m :: rest => quoteS m ++ ", " ++ pyInner rest

/-- Python `repr` of a list of strings, as interpolated by `f"{missing}"`. -/
def pyStrList (l : List String) : String := "[" ++ pyInner l ++ "]"

/-- Modelled from the spec: `format_link` from `dvc.utils` (not under
`src/`); diagnostics-text formatting is out of the spec's scope, so the
link is rendered as its URL text. -/
def format_link (url : String) : String := url

/-- The `pip` install command of `_check_requires` for an effective scheme. -/
def pip_cmd (scheme2 : String) : String :=
  "pip install \x27dvc[" ++ scheme2 ++ "]\x27"

/-- The `conda` install command of `_check_requires` for an effective scheme. -/
def conda_cmd (scheme2 : String) : String :=
  "conda install -c conda-forge dvc-" ++ scheme2

/-- The hint text of `_check_requires`, selected by the packaging channel
`PKG` (modelled as `Option String`): an install command for `pip`/`conda`,
otherwise a bug-report request. -/
def requires_hint (pkg : Option String) (scheme2 : String) : String :=
  let cmd? : Option String :=
    if pkg = some "pip" then some (pip_cmd scheme2)
    else if pkg = some "conda" then some (conda_cmd scheme2)
    else none
  match cmd? with
  | some cmd =>
      "To install dvc with those dependencies, run:\n\n\t" ++ cmd ++
        "\n\nSee " ++ format_link "https://dvc.org/doc/install" ++ " for more info."
  | none =>
      "Please report this bug to " ++
        format_link "https://github.com/iterative/dvc/issues" ++ ". Thank you!"

/-- The message of the `RemoteMissingDepsError` raised by
`_check_requires` for a given URL, effective scheme and missing list. -/
def missing_deps_message (url : String) (pkg : Option String)
    (scheme2 : String) (missing : List String) : String :=
  "URL \x27" ++ url ++ "\x27 is supported but requires these missing " ++
    "dependencies: " ++ pyStrList missing ++ ". " ++ requires_hint pkg scheme2

/-- Model of `BaseFileSystem._check_requires`: computes the missing dependencies;
returns `none` (no error) when all resolve, otherwise
`some message` for the raised `RemoteMissingDepsError`.  `urlArg` models
`kwargs.get("url")`; `pkg` models `dvc.utils.pkg.PKG`; the `webdavs`
scheme is displayed as `webdav`. -/
def check_requires (scheme : String) (urlArg : Option String)
    (pkg : Option String) (requires : List (String × String))
    (resolvable : String → Bool) : Option String :=
  let missing := get_missing_deps requires resolvable
  if missing.isEmpty then none
  else
    let url := urlArg.getD (scheme ++ "://")
    let scheme2 := if scheme = "webdavs" then "webdav" else scheme
    some (missing_deps_message url pkg scheme2 missing)

/-! ## Upload dispatch (`BaseFileSystem.upload`) -/

/-- Outcome of an `upload` call: which signal is raised or which backend
primitive is invoked.  `notImplementedError` is the bare
`NotImplementedError` the source raises for an unsupported cross-backend
transfer. -/
inductive UploadResult where
  | actionNotImplemented (action scheme : String)
  | notImplementedError
  | invokedUploadFobj
  | invokedPutFile
deriving DecidableEq

/-- Model of `BaseFileSystem.upload`, control flow from the source:
method presence check first, then destination-scheme check, then the
stream/located-resource split and the local-source check.  (Progress-bar
setup between the checks has no effect on the outcome and is elided.) -/
def upload (isFileObj hasUploadFobj hasPutFile : Bool)
    (fromScheme toScheme selfScheme : String) : UploadResult :=
  let method := if isFileObj then "upload_fobj" else "put_file"
  if !(if isFileObj then hasUploadFobj else hasPutFile) then
    UploadResult.actionNotImplemented method selfScheme
  else if toScheme ≠ selfScheme then UploadResult.notImplementedError
  else if isFileObj then UploadResult.invokedUploadFobj
  else if fromScheme ≠ "local" then UploadResult.notImplementedError
  else UploadResult.invokedPutFile

/-! ## Download dispatch (`BaseFileSystem.download`) -/

/-- Outcome of the dispatch part of a `download` call. -/
inductive DownloadResult where
  | actionNotImplemented (action scheme : String)
  | notImplementedError
  | serverSideCopy
  | dirDownload
  | fileDownload
deriving DecidableEq

/-- Model of `BaseFileSystem.download`, control flow from the source: `get_file`
presence check first, then source-scheme check, then the server-side copy
branch (`to_info.scheme == self.scheme != "local"`, invoking `self.copy`
and returning 0), then the local-destination check, then the
directory-vs-file split. -/
def download (hasGetFile : Bool) (fromScheme toScheme selfScheme : String)
    (isdir onlyFile : Bool) : DownloadResult :=
  if !hasGetFile then DownloadResult.actionNotImplemented "get_file" selfScheme
  else if fromScheme ≠ selfScheme then DownloadResult.notImplementedError
  else if toScheme = selfScheme ∧ selfScheme ≠ "local" then DownloadResult.serverSideCopy
  else if toScheme ≠ "local" then DownloadResult.notImplementedError
  else if !onlyFile && isdir then DownloadResult.dirDownload
  else DownloadResult.fileDownload

/-! ## Directory download, listing and scheduling (`_download_dir`) -/

/-- Destination path for one listed file: models
`to_info / info.relative_to(from_info)` by replacing the `fromP` root of
`f` with `toP`. -/
def destOf (fromP toP f : String) : String :=
  toP ++ String.mk (f.data.drop fromP.length)

/-- The sequential prologue of `_download_dir`: materializes the recursive
listing; when it is empty, runs `makedirs(to_info, exist_ok=True)` and
returns with no scheduled transfers; otherwise pairs each listed file with
its derived destination as the per-file transfers handed to the pool.
Returns `none` only if `makedirs` fails (it cannot, with
`exist_ok=true`). -/
def download_dir_sched (fs : Fs) (fromP toP : String) (listing : List String) :
    Option (Fs × List (String × String)) :=
  if listing.isEmpty then
    (makedirs fs toP true).map (fun fs2 => (fs2, []))
  else
    some (fs, listing.map (fun f => (f, destOf fromP toP f)))

/-! ## Directory download, failure policy (`_download_dir` pool loop)

The `ThreadPoolExecutor` run is modelled as a step relation over
scheduler states driven by a trace of events, ordered as the pool and the
`as_completed` driver process them: a future starts, or a future
completes (with success or an exception).  Observing a completion models
the driver receiving that future from `as_completed` and querying
`future.exception()`; on the first exception it runs
`for entry in futures: entry.cancel()` — which moves exactly the
not-yet-started futures to cancelled — and re-raises, all in one step.
In-flight futures may still complete afterwards; their outcomes are
processed by no one. -/

/-- Status of one per-file transfer future. -/
inductive FStat where
  | pending
  | running
  | doneOk
  | doneErr (e : Nat)
  | cancelled
deriving DecidableEq

/-- One event of a directory-download run; errors are identified by a
`Nat` code. -/
inductive DirAction where
  | start (i : Nat)
  | finishOk (i : Nat)
  | finishErr (i : Nat) (e : Nat)
deriving DecidableEq

/-- Scheduler state: per-future status and the first re-raised failure. -/
structure DirState where
  status : Nat → FStat
  raised : Option Nat

/-- Initial scheduler state: every submitted future pending, nothing
raised. -/
def dirInit : DirState := { status := fun _ => FStat.pending, raised := none }

/-- Model of `entry.cancel()` over all futures: only not-yet-started ones are
cancellable; running and completed ones are unaffected. -/
def cancelAll (st : Nat → FStat) : Nat → FStat :=
  fun i => if st i = FStat.pending then FStat.cancelled else st i

/-- Point update of a status map. -/
def setStat (st : Nat → FStat) (i : Nat) (v : FStat) : Nat → FStat :=
  fun j => if j = i then v else st j

/-- One step of the pool/driver system.  A `start` only moves a pending
future to running (a cancelled future never starts); a completion only
applies to a running future; the first observed exception records itself
in `raised` and cancels every pending future. -/
def dirStep (s : DirState) : DirAction → DirState
  | DirAction.start i =>
      if s.status i = FStat.pending then
        { s with status := setStat s.status i FStat.running }
      else s
  | DirAction.finishOk i =>
      if s.status i = FStat.running then
        { s with status := setStat s.status i FStat.doneOk }
      else s
  | DirAction.finishErr i e =>
      if s.status i = FStat.running then
        if s.raised = none then
          { status := cancelAll (setStat s.status i (FStat.doneErr e)),
            raised := some e }
        else { s with status := setStat s.status i (FStat.doneErr e) }
      else s

/-- Run a whole event trace from the initial state. -/
def runDir (acts : List DirAction) : DirState :=
  acts.foldl dirStep dirInit

/-- Trace well-formedness: every future starts at most once, completes at
most once, and completes only after it has started. -/
def wfAux : List DirAction → List Nat → List Nat → Bool
  | [], _, _ => true
  | DirAction.start i :: rest, started, fin =>
      !started.contains i && wfAux rest (i :: started) fin
  | DirAction.finishOk i :: rest, started, fin =>
      started.contains i && !fin.contains i && wfAux rest started (i :: fin)
  | DirAction.finishErr i _ :: rest, started, fin =>
      started.contains i && !fin.contains i && wfAux rest started (i :: fin)

/-- Trace well-formedness from an empty history. -/
def wfTrace (acts : List DirAction) : Bool := wfAux acts [] []

/-- Whether a trace fragment contains no failure event. -/
def noFinishErr (acts : List DirAction) : Bool :=
  acts.all (fun a => match a with
    | DirAction.finishErr _ _ => false
    | _ => true)

/-- The futures that have begun within a trace fragment. -/
def startedIn (acts : List DirAction) : List Nat :=
  acts.filterMap (fun a => match a with
    | DirAction.start i => some i
    | _ => none)

/-! ## Single-file download (`_download_file`) -/

/-- The per-path write effect of the backend's `get_file` into the
temporary path: a truncating create followed by the chunk appends. -/
def getFileWrites (fs : Fs) (tmp : String) (chunks : List (List Nat)) : Fs :=
  appendAll (createEmpty fs tmp) tmp chunks

/-- Successive filesystem states while the chunks of `get_file` land in
the file at `p`. -/
def writeStates (fs : Fs) (p : String) : List (List Nat) → List Fs
  | [] => []
  | c :: cs =>
      let fs2 := appendChunk fs p c
      fs2 :: writeStates fs2 p cs

/-- Final filesystem state of a successful `_download_file`: parent
directory ensured, `get_file` written into the temporary path, then the
atomic move onto the destination. -/
def download_file_ok_final (fs0 : Fs) (toP uuid : String)
    (chunks : List (List Nat)) : Fs :=
  let tmp := tmp_fname toP uuid
  fsMove (getFileWrites (mkdirsT fs0 (parentDir toP)) tmp chunks) tmp toP

/-- Every observable filesystem state of a successful `_download_file`, in
order: initial, after `makedirs`, after the temporary file is created,
after each chunk lands in the temporary file, and after the atomic move. -/
def download_file_ok_trace (fs0 : Fs) (toP uuid : String)
    (chunks : List (List Nat)) : List Fs :=
  let fs1 := mkdirsT fs0 (parentDir toP)
  let tmp := tmp_fname toP uuid
  let fs2 := createEmpty fs1 tmp
  fs0 :: fs1 :: fs2 :: writeStates fs2 tmp chunks ++
    [download_file_ok_final fs0 toP uuid chunks]

/-- Error propagated out of a failing `_download_file`. -/
inductive DlErr where
  | backendErr (e : Nat)
  | fileNotFound (p : String)
deriving DecidableEq

/-- Model of `_download_file` when `get_file` raises error `e`: the `except` block
runs `os.unlink(tmp_file)` unconditionally and re-raises.  `created`
states whether `get_file` created the temporary file (writing `chunks`
into it) before failing.  If the temporary path does not exist, `unlink`
itself raises `FileNotFoundError`, which propagates instead of `e`. -/
def download_file_fail (fs0 : Fs) (toP uuid : String) (created : Bool)
    (chunks : List (List Nat)) (e : Nat) : Fs × DlErr :=
  let tmp := tmp_fname toP uuid
  let fs1 := mkdirsT fs0 (parentDir toP)
  let fs2 := if created then getFileWrites fs1 tmp chunks else fs1
  match fs2.files tmp with
  | some _ => (removeF fs2 tmp, DlErr.backendErr e)
  | none => (fs2, DlErr.fileNotFound tmp)

/-! ## Default `move` (`BaseFileSystem.move`) -/

/-- A call to a backend primitive, as issued by `BaseFileSystem.move`. -/
inductive RCall where
  | copy (f t : String)
  | remove (p : String)
deriving DecidableEq

/-- Model of `BaseFileSystem.move` from the source: `self.copy(from_info, to_info)`
followed by `self.remove(from_info)` — nothing else. -/
def base_move (f t : String) : List RCall :=
  [RCall.copy f t, RCall.remove f]

/-- Modelled from the spec: "default implementation = copy then remove". -/
def move_spec (f t : String) : List RCall :=
  [RCall.copy f t, RCall.remove f]

/-- Standard filesystem meaning of the two primitives: `copy` duplicates
the source's content at the target, `remove` deletes the source. -/
def applyCall (fs : Fs) : RCall → Fs
  | RCall.copy f t => { fs with files := fun q => if q = t then fs.files f else fs.files q }
  | RCall.remove p => removeF fs p

/-- The filesystem states reached after each successive call. -/
def runCalls (fs : Fs) : List RCall → List Fs
  | [] => []
  | c :: cs =>
      let fs2 := applyCall fs c
      fs2 :: runCalls fs2 cs

/-- Invariant of the directory-download run while no failure has been
observed, relative to the well-formedness history `(started, fin)`:
nothing raised, every started-but-unfinished future is running, every
unstarted future is still pending. -/
def InvT (s : DirState) (started fin : List Nat) : Prop :=
  s.raised = none ∧
  (∀ j, j ∈ started → j ∉ fin → s.status j = FStat.running) ∧
  (∀ j, j ∉ started → s.status j = FStat.pending)

/-- A one-file fixture filesystem used by concrete witnesses. -/
def sampleFs : Fs :=
  { files := fun q => if q = "a" then some [1] else none, dirs := [] }

/-! ## Helper lemmas -/

theorem startsWithSeq_self_append (s r : List Char) :
    startsWithSeq s (s ++ r) = true := by
  induction s with
  | nil => rfl
  | cons a as ih => simp [startsWithSeq, ih]

theorem containsSeq_of_startsWithSeq {sub l : List Char}
    (h : startsWithSeq sub l = true) : containsSeq sub l = true := by
  cases l with
  | nil => simpa [containsSeq] using h
  | cons a rest => simp [containsSeq, h]

theorem containsSeq_cons {sub l : List Char} (a : Char)
    (h : containsSeq sub l = true) : containsSeq sub (a :: l) = true := by
  simp [containsSeq, h]

theorem containsSeq_append_left {sub l2 : List Char} (l1 : List Char)
    (h : containsSeq sub l2 = true) : containsSeq sub (l1 ++ l2) = true := by
  induction l1 with
  | nil => simpa using h
  | cons a as ih => simpa using containsSeq_cons a ih

theorem strContains_of_decomp {s a m b : String}
    (h : s = a ++ m ++ b) : strContains s m = true := by
  subst h
  show containsSeq m.data ((a ++ m ++ b).data) = true
  have hd : (a ++ m ++ b).data = a.data ++ (m.data ++ b.data) := by
    simp [String.data_append]
  rw [hd]
  exact containsSeq_append_left a.data
    (containsSeq_of_startsWithSeq (startsWithSeq_self_append m.data b.data))

theorem stringEq_of_data {a b : String} (h : a.data = b.data) : a = b := by
  cases a
  cases b
  exact congrArg String.mk h

theorem makedirs_exist_ok (fs : Fs) (p : String) :
    makedirs fs p true = some (mkdirsT fs p) := by
  simp [makedirs, mkdirsT]

@[simp]
theorem mkdirsT_files (fs : Fs) (p : String) :
    (mkdirsT fs p).files = fs.files := rfl

theorem tmp_fname_ne (p uuid : String) : tmp_fname p uuid ≠ p := by
  intro h
  have hlen : (tmp_fname p uuid).length = p.length := by rw [h]
  have d1 : ".".length = 1 := rfl
  have d4 : ".tmp".length = 4 := rfl
  have : (tmp_fname p uuid).length = p.length + 1 + uuid.length + 4 := by
    simp [tmp_fname, String.length_append, d1, d4]
  omega

theorem dropWhile_append_of_all {α : Type} {p : α → Bool} {l1 : List α} (l2 : List α)
    (h : ∀ a ∈ l1, p a = true) :
    (l1 ++ l2).dropWhile p = l2.dropWhile p := by
  induction l1 with
  | nil => rfl
  | cons a as ih =>
    have ha : p a = true := h a (by simp)
    simp only [List.cons_append, List.dropWhile, ha]
    exact ih (fun b hb => h b (by simp [hb]))

theorem parentDir_append (p s : String) (h : ∀ c ∈ s.data, (c != '/') = true) :
    parentDir (p ++ s) = parentDir p := by
  unfold parentDir
  have hd : (p ++ s).data = p.data ++ s.data := String.data_append p s
  rw [hd, List.reverse_append,
    dropWhile_append_of_all p.data.reverse (fun a ha => h a (by simpa using ha))]

/-- The temporary path is colocated with the destination: same parent
directory (the `uuid` component contains no slash). -/
theorem tmp_fname_colocated (p uuid : String)
    (h : ∀ c ∈ uuid.data, (c != '/') = true) :
    parentDir (tmp_fname p uuid) = parentDir p := by
  have h1 := parentDir_append (p ++ "." ++ uuid) ".tmp" (by decide)
  have h2 := parentDir_append (p ++ ".") uuid h
  have h3 := parentDir_append p "." (by decide)
  simpa [tmp_fname] using h1.trans (h2.trans h3)

theorem appendAll_files_self (p : String) (chunks : List (List Nat)) :
    ∀ (fs : Fs) (l : List Nat), fs.files p = some l →
      (appendAll fs p chunks).files p = some (l ++ chunks.flatten) := by
  induction chunks with
  | nil =>
    intro fs l h
    simpa [appendAll] using h
  | cons c cs ih =>
    intro fs l h
    have hstep : (appendChunk fs p c).files p = some (l ++ c) := by
      simp [appendChunk, h]
    have := ih (appendChunk fs p c) (l ++ c) hstep
    simpa [appendAll, List.append_assoc] using this

theorem appendAll_files_other (p q : String) (hq : q ≠ p) (chunks : List (List Nat)) :
    ∀ fs : Fs, (appendAll fs p chunks).files q = fs.files q := by
  induction chunks with
  | nil => intro fs; rfl
  | cons c cs ih =>
    intro fs
    have := ih (appendChunk fs p c)
    simpa [appendAll, appendChunk, hq] using this

@[simp]
theorem createEmpty_files_other (fs : Fs) (p q : String) (hq : q ≠ p) :
    (createEmpty fs p).files q = fs.files q := by
  simp [createEmpty, hq]

theorem getFileWrites_files_self (fs : Fs) (p : String) (chunks : List (List Nat)) :
    (getFileWrites fs p chunks).files p = some chunks.flatten := by
  have h : (createEmpty fs p).files p = some [] := by simp [createEmpty]
  simpa using appendAll_files_self p chunks (createEmpty fs p) [] h

theorem getFileWrites_files_other (fs : Fs) (p q : String) (hq : q ≠ p)
    (chunks : List (List Nat)) :
    (getFileWrites fs p chunks).files q = fs.files q := by
  rw [getFileWrites, appendAll_files_other p q hq chunks,
    createEmpty_files_other fs p q hq]

theorem writeStates_files_other (p q : String) (hq : q ≠ p) (chunks : List (List Nat)) :
    ∀ (fs : Fs), ∀ fs2 ∈ writeStates fs p chunks, fs2.files q = fs.files q := by
  induction chunks with
  | nil => intro fs fs2 h; cases h
  | cons c cs ih =>
    intro fs fs2 h
    rw [writeStates] at h
    rcases List.mem_cons.mp h with h1 | h1
    · subst h1
      simp [appendChunk, hq]
    · have := ih (appendChunk fs p c) fs2 h1
      simpa [appendChunk, hq] using this

theorem download_file_fail_true (fs0 : Fs) (toP uuid : String)
    (chunks : List (List Nat)) (e : Nat) :
    download_file_fail fs0 toP uuid true chunks e =
      (removeF (getFileWrites (mkdirsT fs0 (parentDir toP)) (tmp_fname toP uuid)
        chunks) (tmp_fname toP uuid), DlErr.backendErr e) := by
  unfold download_file_fail
  simp [getFileWrites_files_self]

theorem download_file_fail_false_none (fs0 : Fs) (toP uuid : String)
    (chunks : List (List Nat)) (e : Nat)
    (hpre : fs0.files (tmp_fname toP uuid) = none) :
    download_file_fail fs0 toP uuid false chunks e =
      (mkdirsT fs0 (parentDir toP), DlErr.fileNotFound (tmp_fname toP uuid)) := by
  unfold download_file_fail
  simp [hpre]

theorem download_file_fail_false_some (fs0 : Fs) (toP uuid : String)
    (chunks : List (List Nat)) (e : Nat) (x : List Nat)
    (hpre : fs0.files (tmp_fname toP uuid) = some x) :
    download_file_fail fs0 toP uuid false chunks e =
      (removeF (mkdirsT fs0 (parentDir toP)) (tmp_fname toP uuid),
        DlErr.backendErr e) := by
  unfold download_file_fail
  simp [hpre]

theorem dirStep_absorb (s : DirState) (a : DirAction) (j e : Nat)
    (hr : s.raised = some e) (hj : s.status j = FStat.cancelled) :
    (dirStep s a).raised = some e ∧ (dirStep s a).status j = FStat.cancelled := by
  cases a with
  | start i =>
    by_cases hi : s.status i = FStat.pending
    · have hij : j ≠ i := by
        intro h
        rw [h, hi] at hj
        cases hj
      simp [dirStep, hi, setStat, hij, hr, hj]
    · simp [dirStep, hi, hr, hj]
  | finishOk i =>
    by_cases hi : s.status i = FStat.running
    · have hij : j ≠ i := by
        intro h
        rw [h, hi] at hj
        cases hj
      simp [dirStep, hi, setStat, hij, hr, hj]
    · simp [dirStep, hi, hr, hj]
  | finishErr i e2 =>
    by_cases hi : s.status i = FStat.running
    · have hij : j ≠ i := by
        intro h
        rw [h, hi] at hj
        cases hj
      have hrn : ¬ s.raised = none := by simp [hr]
      simp [dirStep, hi, hrn, setStat, hij, hr, hj]
    · simp [dirStep, hi, hr, hj]

theorem run_absorb (t : List DirAction) (j e : Nat) :
    ∀ s : DirState, s.raised = some e → s.status j = FStat.cancelled →
      (t.foldl dirStep s).raised = some e ∧
      (t.foldl dirStep s).status j = FStat.cancelled := by
  induction t with
  | nil => intro s hr hj; exact ⟨hr, hj⟩
  | cons a rest ih =>
    intro s hr hj
    have h := dirStep_absorb s a j e hr hj
    simpa [List.foldl_cons] using ih (dirStep s a) h.1 h.2

theorem dirRun_split (i e : Nat) (t2 : List DirAction) (j : Nat) :
    ∀ (t1 : List DirAction) (s : DirState) (started fin : List Nat),
      InvT s started fin →
      wfAux (t1 ++ DirAction.finishErr i e :: t2) started fin = true →
      noFinishErr t1 = true →
      j ∉ started → j ∉ startedIn t1 →
      ((t1 ++ DirAction.finishErr i e :: t2).foldl dirStep s).raised = some e ∧
      ((t1 ++ DirAction.finishErr i e :: t2).foldl dirStep s).status j =
        FStat.cancelled := by
  intro t1
  induction t1 with
  | nil =>
    intro s started fin hInv hwf hno hj1 hj2
    obtain ⟨hr, hrun, hpend⟩ := hInv
    rw [List.nil_append] at hwf ⊢
    rw [wfAux] at hwf
    simp only [Bool.and_eq_true, Bool.not_eq_true'] at hwf
    have hi : i ∈ started := by simpa using hwf.1.1
    have hifin : i ∉ fin := by simpa using hwf.1.2
    have hsi : s.status i = FStat.running := hrun i hi hifin
    have hsj : s.status j = FStat.pending := hpend j hj1
    have hstep : dirStep s (DirAction.finishErr i e) =
        { status := cancelAll (setStat s.status i (FStat.doneErr e)),
          raised := some e } := by
      simp [dirStep, hsi, hr]
    have hij : j ≠ i := by
      intro h
      rw [h, hsi] at hsj
      cases hsj
    have hcj : (cancelAll (setStat s.status i (FStat.doneErr e))) j =
        FStat.cancelled := by
      simp [cancelAll, setStat, hij, hsj]
    rw [List.foldl_cons, hstep]
    exact run_absorb t2 j e _ rfl hcj
  | cons a rest ih =>
    intro s started fin hInv hwf hno hj1 hj2
    obtain ⟨hr, hrun, hpend⟩ := hInv
    cases a with
    | start k =>
      rw [List.cons_append, wfAux] at hwf
      simp only [Bool.and_eq_true, Bool.not_eq_true'] at hwf
      have hk : k ∉ started := by simpa using hwf.1
      have hwf2 : wfAux (rest ++ DirAction.finishErr i e :: t2) (k :: started) fin = true :=
        hwf.2
      have hsk : s.status k = FStat.pending := hpend k hk
      have hstep : dirStep s (DirAction.start k) =
          { s with status := setStat s.status k FStat.running } := by
        simp [dirStep, hsk]
      have hjk : j ≠ k := by
        intro h
        apply hj2
        rw [h]
        simp [startedIn]
      have hInv2 : InvT { s with status := setStat s.status k FStat.running }
          (k :: started) fin := by
        refine ⟨hr, ?_, ?_⟩
        · intro m hm hmf
          rcases List.mem_cons.mp hm with h1 | h1
          · subst h1
            simp [setStat]
          · by_cases hmk : m = k
            · subst hmk
              simp [setStat]
            · simp only [setStat, if_neg hmk]
              exact hrun m h1 hmf
        · intro m hm
          have hmk : m ≠ k := fun h => hm (h ▸ List.mem_cons_self k started)
          have hms : m ∉ started := fun h => hm (List.mem_cons_of_mem k h)
          simp only [setStat, if_neg hmk]
          exact hpend m hms
      have hno2 : noFinishErr rest = true := by
        simpa [noFinishErr] using hno
      have hj12 : j ∉ (k :: started) := by
        intro h
        rcases List.mem_cons.mp h with h1 | h1
        · exact hjk h1
        · exact hj1 h1
      have hj22 : j ∉ startedIn rest := by
        intro h
        apply hj2
        simp [startedIn] at h ⊢
        exact Or.inr h
      rw [List.cons_append, List.foldl_cons, hstep]
      exact ih _ (k :: started) fin hInv2 hwf2 hno2 hj12 hj22
    | finishOk k =>
      rw [List.cons_append, wfAux] at hwf
      simp only [Bool.and_eq_true, Bool.not_eq_true'] at hwf
      have hk : k ∈ started := by simpa using hwf.1.1
      have hkf : k ∉ fin := by simpa using hwf.1.2
      have hwf2 : wfAux (rest ++ DirAction.finishErr i e :: t2) started (k :: fin) = true :=
        hwf.2
      have hsk : s.status k = FStat.running := hrun k hk hkf
      have hstep : dirStep s (DirAction.finishOk k) =
          { s with status := setStat s.status k FStat.doneOk } := by
        simp [dirStep, hsk]
      have hInv2 : InvT { s with status := setStat s.status k FStat.doneOk }
          started (k :: fin) := by
        refine ⟨hr, ?_, ?_⟩
        · intro m hm hmf
          have hmk : m ≠ k := fun h => hmf (h ▸ List.mem_cons_self k fin)
          have hmf2 : m ∉ fin := fun h => hmf (List.mem_cons_of_mem k h)
          simp only [setStat, if_neg hmk]
          exact hrun m hm hmf2
        · intro m hm
          have hmk : m ≠ k := by
            intro h
            exact hm (h ▸ hk)
          simp only [setStat, if_neg hmk]
          exact hpend m hm
      have hno2 : noFinishErr rest = true := by
        simpa [noFinishErr] using hno
      have hj22 : j ∉ startedIn rest := by
        simpa [startedIn] using hj2
      rw [List.cons_append, List.foldl_cons, hstep]
      exact ih _ started (k :: fin) hInv2 hwf2 hno2 hj1 hj22
    | finishErr k e2 =>
      exfalso
      simp [noFinishErr] at hno

theorem strContains_of_decompL {s m b : String}
    (h : s = m ++ b) : strContains s m = true := by
  subst h
  show containsSeq m.data ((m ++ b).data) = true
  rw [String.data_append]
  exact containsSeq_of_startsWithSeq (startsWithSeq_self_append m.data b.data)

theorem strContains_of_decompR {s a m : String}
    (h : s = a ++ m) : strContains s m = true := by
  subst h
  show containsSeq m.data ((a ++ m).data) = true
  rw [String.data_append]
  apply containsSeq_append_left
  apply containsSeq_of_startsWithSeq
  simpa using startsWithSeq_self_append m.data []

/-- The `RemoteActionNotImplemented` message names both the action and the
scheme. -/
theorem rani_message_names (a s : String) :
    strContains (rani_message a s) a = true ∧
    strContains (rani_message a s) s = true := by
  constructor
  · apply strContains_of_decompL (b := " is not supported for " ++ s ++ " remotes")
    apply stringEq_of_data
    simp [rani_message, String.data_append]
  · apply strContains_of_decomp (a := a ++ " is not supported for ") (b := " remotes")
    apply stringEq_of_data
    simp [rani_message, String.data_append]

theorem pyInner_decomp : ∀ (l : List String) (m : String), m ∈ l →
    ∃ x y, pyInner l = x ++ m ++ y := by
  intro l
  induction l with
  | nil => intro m hm; cases hm
  | cons a rest ih =>
    intro m hm
    rcases List.mem_cons.mp hm with h1 | h1
    · subst h1
      cases rest with
      | nil => exact ⟨"\x27", "\x27", rfl⟩
      | cons b t =>
        refine ⟨"\x27", "\x27" ++ ", " ++ pyInner (b :: t), ?_⟩
        apply stringEq_of_data
        simp [pyInner, quoteS, String.data_append]
    · have hrest : rest ≠ [] := by
        intro h
        rw [h] at h1
        cases h1
      obtain ⟨x, y, hxy⟩ := ih m h1
      cases rest with
      | nil => exact absurd rfl hrest
      | cons b t =>
        refine ⟨quoteS a ++ ", " ++ x, y, ?_⟩
        apply stringEq_of_data
        have hg : pyInner (a :: b :: t) = quoteS a ++ ", " ++ pyInner (b :: t) := rfl
        rw [hg, hxy]
        simp [String.data_append]

theorem missing_deps_message_has_url (url : String) (pkg : Option String)
    (s2 : String) (missing : List String) :
    strContains (missing_deps_message url pkg s2 missing) url = true := by
  apply strContains_of_decomp (a := "URL \x27")
    (b := "\x27 is supported but requires these missing " ++ "dependencies: " ++
      pyStrList missing ++ ". " ++ requires_hint pkg s2)
  apply stringEq_of_data
  simp [missing_deps_message, String.data_append]

theorem missing_deps_message_has_mem (url : String) (pkg : Option String)
    (s2 : String) (missing : List String) (m : String) (hm : m ∈ missing) :
    strContains (missing_deps_message url pkg s2 missing) m = true := by
  obtain ⟨x, y, hxy⟩ := pyInner_decomp missing m hm
  apply strContains_of_decomp
    (a := "URL \x27" ++ url ++ "\x27 is supported but requires these missing " ++
      "dependencies: " ++ "[" ++ x)
    (b := y ++ "]" ++ ". " ++ requires_hint pkg s2)
  apply stringEq_of_data
  rw [missing_deps_message, pyStrList, hxy]
  simp [String.data_append]

theorem missing_deps_message_has_hint (url : String) (pkg : Option String)
    (s2 : String) (missing : List String) :
    strContains (missing_deps_message url pkg s2 missing)
      (requires_hint pkg s2) = true :=
  strContains_of_decompR rfl

/-! ## Claim theorems -/

/-- C10: a `download` call against a backend lacking `get_file` raises
`RemoteActionNotImplemented("get_file", scheme)` before any scheme check —
for all scheme combinations, in particular (second conjunct) when
`destination.scheme == backend.scheme != "local"`, the server-side copy
path that never invokes `get_file`. -/
theorem c10_download_requires_get_file_first :
    (∀ (fromScheme toScheme selfScheme : String) (isdir onlyFile : Bool),
      download false fromScheme toScheme selfScheme isdir onlyFile =
        DownloadResult.actionNotImplemented "get_file" selfScheme) ∧
    download false "s3" "s3" "s3" false false =
      DownloadResult.actionNotImplemented "get_file" "s3" :=
  ⟨fun _ _ _ _ _ => rfl, rfl⟩

/-- C4: when the destination scheme equals the backend scheme and the
shared scheme is not "local" (and the call passed the earlier guards:
`get_file` present, source scheme equal to the backend scheme), `download`
takes the server-side `copy` branch and returns immediately — the result
is `serverSideCopy`, not the directory or single-file materialization
paths. -/
theorem c4_download_server_side_copy (fromScheme toScheme selfScheme : String)
    (isdir onlyFile : Bool) (hfrom : fromScheme = selfScheme)
    (hto : toScheme = selfScheme) (hnl : selfScheme ≠ "local") :
    download true fromScheme toScheme selfScheme isdir onlyFile =
      DownloadResult.serverSideCopy ∧
    DownloadResult.serverSideCopy ≠ DownloadResult.dirDownload ∧
    DownloadResult.serverSideCopy ≠ DownloadResult.fileDownload := by
  subst hfrom
  subst hto
  refine ⟨?_, by decide, by decide⟩
  simp [download, hnl]

/-- Witness for C4 at a concrete input. -/
theorem c4_download_server_side_copy_witness :
    download true "s3" "s3" "s3" false false = DownloadResult.serverSideCopy :=
  (c4_download_server_side_copy "s3" "s3" "s3" false false rfl rfl (by decide)).1

/-- C5: the backend `upload` primitive is invoked only when the
destination scheme equals the backend scheme and, for non-stream sources,
the source scheme is "local"; and (given the selected primitive exists,
which is checked first) any violation of either condition raises the bare
`NotImplementedError` — the unsupported-cross-backend-transfer signal —
without invoking the primitive. -/
theorem c5_upload_scheme_gate (isFileObj hasUploadFobj hasPutFile : Bool)
    (fromScheme toScheme selfScheme : String) :
    ((upload isFileObj hasUploadFobj hasPutFile fromScheme toScheme selfScheme =
        UploadResult.invokedUploadFobj ∨
      upload isFileObj hasUploadFobj hasPutFile fromScheme toScheme selfScheme =
        UploadResult.invokedPutFile) →
      toScheme = selfScheme ∧ (isFileObj = false → fromScheme = "local")) ∧
    ((if isFileObj then hasUploadFobj else hasPutFile) = true →
      (toScheme ≠ selfScheme ∨ (isFileObj = false ∧ fromScheme ≠ "local")) →
      upload isFileObj hasUploadFobj hasPutFile fromScheme toScheme selfScheme =
        UploadResult.notImplementedError) := by
  unfold upload
  cases isFileObj <;> cases hasUploadFobj <;> cases hasPutFile <;>
    by_cases h1 : toScheme = selfScheme <;>
    by_cases h2 : fromScheme = "local" <;>
    simp [h1, h2]

/-- Witness for C5 at a concrete input: a located-resource upload whose
source is not local raises the cross-backend signal. -/
theorem c5_upload_scheme_gate_witness :
    upload false true true "s3" "s3" "s3" = UploadResult.notImplementedError :=
  (c5_upload_scheme_gate false true true "s3" "s3" "s3").2 rfl
    (Or.inr ⟨rfl, by decide⟩)

/-- C6: a directory download whose recursive listing is empty runs
`makedirs(to_info, exist_ok=True)` — which succeeds whether or not the
destination directory already exists (the filesystem is universally
quantified) — schedules no per-file transfer, and returns with no
error. -/
theorem c6_download_dir_empty (fs : Fs) (fromP toP : String) :
    download_dir_sched fs fromP toP [] = some (mkdirsT fs toP, []) ∧
    (mkdirsT fs toP).dirs.contains toP = true ∧
    (∀ q, (mkdirsT fs toP).files q = fs.files q) := by
  refine ⟨?_, ?_, fun q => rfl⟩
  · simp [download_dir_sched, makedirs_exist_ok]
  · by_cases h : toP ∈ fs.dirs
    · simp [mkdirsT, h]
    · simp [mkdirsT, h]

/-- C7 counterexample: the claim says every operation in its list —
including `makedirs` and `walk` — signals the "action not supported"
condition on the base backend; but unoverridden `makedirs` returns `None`
and unoverridden `walk` raises a bare `NotImplementedError`, neither of
which is the `RemoteActionNotImplemented` signal. -/
theorem c7_counterexample :
    baseBehavior Op.makedirsOp "s3" = OpBehavior.returnsNone ∧
    baseBehavior Op.walk "s3" = OpBehavior.raisesNotImplementedError ∧
    OpBehavior.returnsNone ≠
      OpBehavior.raisesRemoteActionNotImplemented "makedirs" "s3" ∧
    OpBehavior.raisesNotImplementedError ≠
      OpBehavior.raisesRemoteActionNotImplemented "walk" "s3" := by
  refine ⟨rfl, rfl, ?_, ?_⟩ <;> intro h <;> cases h

/-- C7 (amended): unoverridden `open`, `ls`, `find`, `remove`, `copy`,
`symlink`, `hardlink` and `reflink` signal the distinct
`RemoteActionNotImplemented` condition whose message names both the
action and the backend scheme; `walk` and `walk_files` instead raise a
bare `NotImplementedError`, and `makedirs` is a silent no-op returning
`None`. -/
theorem c7_base_capability_defaults (scheme : String) :
    (∀ op, op ∈ [Op.openAct, Op.ls, Op.find, Op.remove, Op.copy,
        Op.symlink, Op.hardlink, Op.reflink] →
      baseBehavior op scheme =
        OpBehavior.raisesRemoteActionNotImplemented (opName op) scheme ∧
      strContains (rani_message (opName op) scheme) (opName op) = true ∧
      strContains (rani_message (opName op) scheme) scheme = true) ∧
    baseBehavior Op.walk scheme = OpBehavior.raisesNotImplementedError ∧
    baseBehavior Op.walk_files scheme = OpBehavior.raisesNotImplementedError ∧
    baseBehavior Op.makedirsOp scheme = OpBehavior.returnsNone := by
  refine ⟨?_, rfl, rfl, rfl⟩
  intro op hop
  fin_cases hop <;>
    exact ⟨rfl, (rani_message_names _ scheme).1, (rani_message_names _ scheme).2⟩

/-- Witness for the amended C7 at a concrete operation and scheme. -/
theorem c7_base_capability_defaults_witness :
    baseBehavior Op.ls "s3" =
      OpBehavior.raisesRemoteActionNotImplemented "ls" "s3" ∧
    strContains (rani_message "ls" "s3") "ls" = true ∧
    strContains (rani_message "ls" "s3") "s3" = true :=
  (c7_base_capability_defaults "s3").1 Op.ls (by decide)

/-- C9: the default `move` is exactly `copy(from, to)` then
`remove(from)`, in that order with no intervening call (refinement against
the spec-worded `move_spec`); and it is not atomic — at the intermediate
state after the copy, both the source and the destination hold the
content, so stopping between the two steps leaves two copies. -/
theorem c9_move_is_copy_then_remove (fs : Fs) (f t : String) (c : List Nat)
    (hne : f ≠ t) (hc : fs.files f = some c) :
    base_move f t = move_spec f t ∧
    base_move f t = [RCall.copy f t, RCall.remove f] ∧
    runCalls fs (base_move f t) =
      [applyCall fs (RCall.copy f t),
        applyCall (applyCall fs (RCall.copy f t)) (RCall.remove f)] ∧
    (applyCall fs (RCall.copy f t)).files f = some c ∧
    (applyCall fs (RCall.copy f t)).files t = some c ∧
    (applyCall (applyCall fs (RCall.copy f t)) (RCall.remove f)).files t = some c ∧
    (applyCall (applyCall fs (RCall.copy f t)) (RCall.remove f)).files f = none := by
  have hne2 : t ≠ f := fun h => hne h.symm
  refine ⟨rfl, rfl, rfl, ?_, ?_, ?_, ?_⟩ <;>
    simp [applyCall, removeF, hne, hne2, hc]

/-- Witness for C9 at a concrete filesystem and paths. -/
theorem c9_move_is_copy_then_remove_witness :
    base_move "a" "b" = move_spec "a" "b" ∧
    (applyCall sampleFs (RCall.copy "a" "b")).files "a" = some [1] ∧
    (applyCall sampleFs (RCall.copy "a" "b")).files "b" = some [1] :=
  have h := c9_move_is_copy_then_remove sampleFs "a" "b" [1] (by decide) rfl
  ⟨h.1, h.2.2.2.1, h.2.2.2.2.1⟩

/-- C2: a successful single-file download writes the bytes into a
colocated temporary path and installs them with one atomic move: the
final state holds exactly the source bytes (the concatenation of the
`get_file` chunks) at the destination, every earlier state of the trace
leaves the destination exactly as it initially was (no mixture, no strict
partial prefix ever observable there), the last trace state is the moved
state, and the temporary path shares the destination's parent
directory. -/
theorem c2_download_file_atomic (fs0 : Fs) (toP uuid : String)
    (chunks : List (List Nat)) (hu : ∀ c ∈ uuid.data, (c != '/') = true) :
    (download_file_ok_final fs0 toP uuid chunks).files toP = some chunks.flatten ∧
    (∀ fs2 ∈ (download_file_ok_trace fs0 toP uuid chunks).dropLast,
      fs2.files toP = fs0.files toP) ∧
    (download_file_ok_trace fs0 toP uuid chunks).getLast? =
      some (download_file_ok_final fs0 toP uuid chunks) ∧
    parentDir (tmp_fname toP uuid) = parentDir toP := by
  have htn : tmp_fname toP uuid ≠ toP := tmp_fname_ne toP uuid
  have htp : toP ≠ tmp_fname toP uuid := fun h => htn h.symm
  have htr : download_file_ok_trace fs0 toP uuid chunks =
      (fs0 :: mkdirsT fs0 (parentDir toP) ::
        createEmpty (mkdirsT fs0 (parentDir toP)) (tmp_fname toP uuid) ::
        writeStates (createEmpty (mkdirsT fs0 (parentDir toP)) (tmp_fname toP uuid))
          (tmp_fname toP uuid) chunks) ++
        [download_file_ok_final fs0 toP uuid chunks] := by
    simp [download_file_ok_trace]
  refine ⟨?_, ?_, ?_, tmp_fname_colocated toP uuid hu⟩
  · unfold download_file_ok_final
    show (fsMove _ (tmp_fname toP uuid) toP).files toP = some chunks.flatten
    simp only [fsMove, if_pos rfl]
    exact getFileWrites_files_self _ _ chunks
  · intro fs2 hmem
    rw [htr, List.dropLast_concat] at hmem
    rcases List.mem_cons.mp hmem with h1 | h1
    · rw [h1]
    rcases List.mem_cons.mp h1 with h2 | h2
    · rw [h2, mkdirsT_files]
    rcases List.mem_cons.mp h2 with h3 | h3
    · rw [h3, createEmpty_files_other _ _ _ htp, mkdirsT_files]
    · have := writeStates_files_other (tmp_fname toP uuid) toP htp chunks _ fs2 h3
      rw [this, createEmpty_files_other _ _ _ htp, mkdirsT_files]
  · rw [htr]
    exact List.getLast?_concat _

/-- Witness for C2 at a concrete download of two chunks into `d/f`. -/
theorem c2_download_file_atomic_witness :
    (download_file_ok_final emptyFs "d/f" "u1" [[1, 2], [3]]).files "d/f" =
      some [1, 2, 3] ∧
    parentDir (tmp_fname "d/f" "u1") = parentDir "d/f" := by
  have h := c2_download_file_atomic emptyFs "d/f" "u1" [[1, 2], [3]] (by decide)
  exact ⟨by simpa using h.1, h.2.2.2⟩

/-- C3 counterexample: when `get_file` raises without having created the
temporary file, the unconditional `os.unlink(tmp_file)` in the `except`
block raises `FileNotFoundError`, which propagates in place of the
original backend exception (error code 7 here) — the claim's "re-raises
the original exception unmodified" fails at this input. -/
theorem c3_counterexample :
    (download_file_fail emptyFs "d/f" "u1" false [] 7).2 =
      DlErr.fileNotFound (tmp_fname "d/f" "u1") ∧
    DlErr.fileNotFound (tmp_fname "d/f" "u1") ≠ DlErr.backendErr 7 := by
  refine ⟨rfl, ?_⟩
  intro h
  cases h

/-- C3 (amended): when `get_file` raises, the destination path — and
every other path except the temporary one — is left exactly as before the
call, and no temporary artifact remains; if the temporary file was created
(or the temporary path happened to pre-exist), it is removed and the
original exception is re-raised unmodified; if it was never created, the
cleanup's `os.unlink` itself raises `FileNotFoundError` for the temporary
path, replacing the original exception. -/
theorem c3_download_file_fail_cleanup (fs0 : Fs) (toP uuid : String)
    (created : Bool) (chunks : List (List Nat)) (e : Nat) :
    (∀ q, q ≠ tmp_fname toP uuid →
      (download_file_fail fs0 toP uuid created chunks e).1.files q = fs0.files q) ∧
    (download_file_fail fs0 toP uuid created chunks e).1.files
      (tmp_fname toP uuid) = none ∧
    (created = true →
      (download_file_fail fs0 toP uuid created chunks e).2 = DlErr.backendErr e) ∧
    (created = false → fs0.files (tmp_fname toP uuid) ≠ none →
      (download_file_fail fs0 toP uuid created chunks e).2 = DlErr.backendErr e) ∧
    (created = false → fs0.files (tmp_fname toP uuid) = none →
      (download_file_fail fs0 toP uuid created chunks e).2 =
        DlErr.fileNotFound (tmp_fname toP uuid)) := by
  cases created with
  | true =>
    rw [download_file_fail_true]
    refine ⟨?_, ?_, ?_, ?_, ?_⟩
    · intro q hq
      show (removeF _ _).files q = fs0.files q
      rw [removeF]
      simp only [if_neg hq]
      rw [getFileWrites_files_other _ _ _ hq chunks, mkdirsT_files]
    · show (removeF _ _).files (tmp_fname toP uuid) = none
      simp [removeF]
    · intro _
      rfl
    · intro h
      cases h
    · intro h
      cases h
  | false =>
    cases hpre : fs0.files (tmp_fname toP uuid) with
    | none =>
      rw [download_file_fail_false_none fs0 toP uuid chunks e hpre]
      refine ⟨?_, ?_, ?_, ?_, ?_⟩
      · intro q _
        rw [mkdirsT_files]
      · show (mkdirsT fs0 (parentDir toP)).files (tmp_fname toP uuid) = none
        rw [mkdirsT_files, hpre]
      · intro h
        cases h
      · intro _ hcon
        exact absurd rfl hcon
      · intro _ _
        rfl
    | some x =>
      rw [download_file_fail_false_some fs0 toP uuid chunks e x hpre]
      refine ⟨?_, ?_, ?_, ?_, ?_⟩
      · intro q hq
        show (removeF _ _).files q = fs0.files q
        rw [removeF]
        simp only [if_neg hq]
        rw [mkdirsT_files]
      · show (removeF _ _).files (tmp_fname toP uuid) = none
        simp [removeF]
      · intro h
        cases h
      · intro _ _
        rfl
      · intro _ hcon
        cases hcon

/-- Witness for the amended C3: a failure after the temporary file was
created removes it, leaves the pre-existing destination content intact
and re-raises the original error. -/
theorem c3_download_file_fail_cleanup_witness :
    (download_file_fail sampleFs "a" "u1" true [[2]] 7).1.files "a" = some [1] ∧
    (download_file_fail sampleFs "a" "u1" true [[2]] 7).1.files
      (tmp_fname "a" "u1") = none ∧
    (download_file_fail sampleFs "a" "u1" true [[2]] 7).2 = DlErr.backendErr 7 := by
  have h := c3_download_file_fail_cleanup sampleFs "a" "u1" true [[2]] 7
  exact ⟨h.1 "a" (fun hx => tmp_fname_ne "a" "u1" hx.symm), h.2.1, h.2.2.1 rfl⟩

/-- C1: in a directory download whose event trace is well-formed and
contains a failure, where `t1` is the (failure-free) portion processed
before the first failing completion `finishErr i e` and `t2` whatever
follows: the run re-raises exactly `e` — the first failure in completion
order, regardless of submission index `i` and of any further failures in
`t2`, which are neither aggregated nor reported — and every per-file
transfer `j` that had not begun when that failure was observed ends
cancelled, hence is never fully transferred. -/
theorem c1_download_dir_first_failure (t1 t2 : List DirAction) (i e j : Nat)
    (hwf : wfTrace (t1 ++ DirAction.finishErr i e :: t2) = true)
    (hno : noFinishErr t1 = true)
    (hj : j ∉ startedIn t1) :
    (runDir (t1 ++ DirAction.finishErr i e :: t2)).raised = some e ∧
    (runDir (t1 ++ DirAction.finishErr i e :: t2)).status j = FStat.cancelled ∧
    (runDir (t1 ++ DirAction.finishErr i e :: t2)).status j ≠ FStat.doneOk := by
  have hInv : InvT dirInit [] [] :=
    ⟨rfl, fun m hm _ => absurd hm (List.not_mem_nil m), fun _ _ => rfl⟩
  have h := dirRun_split i e t2 j t1 dirInit [] [] hInv hwf hno
    (List.not_mem_nil j) hj
  refine ⟨h.1, h.2, ?_⟩
  show (runDir (t1 ++ DirAction.finishErr i e :: t2)).status j ≠ FStat.doneOk
  have h2 : (runDir (t1 ++ DirAction.finishErr i e :: t2)).status j =
      FStat.cancelled := h.2
  rw [h2]
  intro hcon
  cases hcon

/-- Witness for C1: futures 0 and 1 start, future 1 fails first with
error 7, future 0 fails later with error 9 (ignored), future 2 never
began and ends cancelled; the run re-raises 7. -/
theorem c1_download_dir_first_failure_witness :
    (runDir [DirAction.start 0, DirAction.start 1, DirAction.finishErr 1 7,
      DirAction.finishErr 0 9]).raised = some 7 ∧
    (runDir [DirAction.start 0, DirAction.start 1, DirAction.finishErr 1 7,
      DirAction.finishErr 0 9]).status 2 = FStat.cancelled := by
  have h := c1_download_dir_first_failure [DirAction.start 0, DirAction.start 1]
    [DirAction.finishErr 0 9] 1 7 2 (by decide) (by decide) (by decide)
  exact ⟨h.1, h.2.1⟩

/-- C8 counterexample: with an explicitly supplied URL not containing the
scheme and a packaging channel that is neither `pip` nor `conda`, the
raised Missing Dependencies message does not carry the backend scheme
("base") anywhere, and its hint is a bug-report request, not an
installation hint — refuting the claim that the message always carries
the backend scheme and a channel-selected installation hint. -/
theorem c8_counterexample :
    check_requires "base" (some "u") none [("foo", "foomod")]
      (fun _ => false) =
      some (missing_deps_message "u" none "base" ["foo"]) ∧
    strContains (missing_deps_message "u" none "base" ["foo"]) "base" = false := by
  exact ⟨by decide, by decide⟩

/-- C8 (amended): when all declared dependencies resolve, `_check_requires`
raises nothing; the missing list is exactly the declared packages whose
module does not resolve; and when it is non-empty, construction raises a
`RemoteMissingDepsError` whose message carries the attempted URL
(defaulting to `scheme://`), every missing dependency name, and the hint
selected by the packaging channel — an install command naming the
effective (`webdavs`-normalized) scheme for `pip`/`conda`, a bug-report
request otherwise.  The backend scheme itself reaches the message only
through the default URL or the `pip`/`conda` hint. -/
theorem c8_check_requires_missing_deps (scheme : String) (urlArg : Option String)
    (pkg : Option String) (requires : List (String × String))
    (resolvable : String → Bool) :
    (get_missing_deps requires resolvable = [] →
      check_requires scheme urlArg pkg requires resolvable = none) ∧
    (∀ m, m ∈ get_missing_deps requires resolvable ↔
      ∃ mod, (m, mod) ∈ requires ∧ resolvable mod = false) ∧
    (get_missing_deps requires resolvable ≠ [] →
      check_requires scheme urlArg pkg requires resolvable =
        some (missing_deps_message (urlArg.getD (scheme ++ "://")) pkg
          (if scheme = "webdavs" then "webdav" else scheme)
          (get_missing_deps requires resolvable)) ∧
      strContains (missing_deps_message (urlArg.getD (scheme ++ "://")) pkg
          (if scheme = "webdavs" then "webdav" else scheme)
          (get_missing_deps requires resolvable))
        (urlArg.getD (scheme ++ "://")) = true ∧
      (∀ m ∈ get_missing_deps requires resolvable,
        strContains (missing_deps_message (urlArg.getD (scheme ++ "://")) pkg
          (if scheme = "webdavs" then "webdav" else scheme)
          (get_missing_deps requires resolvable)) m = true) ∧
      strContains (missing_deps_message (urlArg.getD (scheme ++ "://")) pkg
          (if scheme = "webdavs" then "webdav" else scheme)
          (get_missing_deps requires resolvable))
        (requires_hint pkg (if scheme = "webdavs" then "webdav" else scheme)) =
        true) := by
  refine ⟨?_, ?_, ?_⟩
  · intro h
    simp [check_requires, h]
  · intro m
    constructor
    · intro hm
      rw [get_missing_deps] at hm
      obtain ⟨pr, hpr, hfst⟩ := List.mem_map.mp hm
      obtain ⟨hmem, hres⟩ := List.mem_filter.mp hpr
      refine ⟨pr.2, ?_, ?_⟩
      · have hpr2 : (m, pr.2) = pr := by
          rw [← hfst]
        rw [hpr2]
        exact hmem
      · simpa using hres
    · rintro ⟨mod, hmem, hres⟩
      rw [get_missing_deps]
      apply List.mem_map.mpr
      exact ⟨(m, mod), List.mem_filter.mpr ⟨hmem, by simp [hres]⟩, rfl⟩
  · intro hne
    have hie : (get_missing_deps requires resolvable).isEmpty = false := by
      simpa using hne
    refine ⟨?_, missing_deps_message_has_url _ _ _ _,
      fun m hm => missing_deps_message_has_mem _ _ _ _ m hm,
      missing_deps_message_has_hint _ _ _ _⟩
    simp [check_requires, hie]

/-- Witness for the amended C8 at a concrete backend with one
unresolvable dependency under the `pip` channel. -/
theorem c8_check_requires_missing_deps_witness :
    check_requires "s3" none (some "pip") [("foo", "foomod")] (fun _ => false) =
      some (missing_deps_message "s3://" (some "pip") "s3" ["foo"]) ∧
    strContains (missing_deps_message "s3://" (some "pip") "s3" ["foo"])
      "foo" = true := by
  have h := (c8_check_requires_missing_deps "s3" none (some "pip")
    [("foo", "foomod")] (fun _ => false)).2.2 (by decide)
  exact ⟨h.1, h.2.2.1 "foo" (by decide)⟩

end DvcFsBase
